import Mathlib

/-!
Verification of the 3D primitive shapes module (`bevy_math/src/primitives/dim3.rs`).

The `f32` scalar type is modelled by `F`: an idealized IEEE-754 value whose
finite values are exact real numbers (no rounding), plus the special values
`+∞`, `-∞` and `NaN`.  Arithmetic on `F` follows the IEEE special-value rules;
on finite operands it is exact real arithmetic, so properties stated in the
spec "within floating-point tolerance" hold exactly in this model.
-/

noncomputable section

open scoped Classical

/-- Idealized IEEE-754 scalar: exact finite reals plus `+∞`, `-∞`, `NaN`. -/
inductive F where
  | fin : ℝ → F
  | inf : F
  | ninf : F
  | nan : F

namespace F

/-- Model of `f32::is_finite`. -/
def isFinite : F → Bool
  | fin _ => true
  | _ => false

/-- Model of `f32::is_nan`. -/
def isNaN : F → Bool
  | nan => true
  | _ => false

/-- Model of `f32::is_infinite`. -/
def isInfinite : F → Bool
  | inf => true
  | ninf => true
  | _ => false

/-- IEEE negation. -/
def neg : F → F
  | fin x => fin (-x)
  | inf => ninf
  | ninf => inf
  | nan => nan

/-- IEEE addition (idealized: finite results never overflow). -/
def add : F → F → F
  | nan, _ => nan
  | _, nan => nan
  | fin x, fin y => fin (x + y)
  | fin _, inf => inf
  | inf, fin _ => inf
  | fin _, ninf => ninf
  | ninf, fin _ => ninf
  | inf, inf => inf
  | ninf, ninf => ninf
  | inf, ninf => nan
  | ninf, inf => nan

/-- IEEE subtraction (idealized: finite results never overflow). -/
def sub : F → F → F
  | nan, _ => nan
  | _, nan => nan
  | fin x, fin y => fin (x - y)
  | fin _, inf => ninf
  | inf, fin _ => inf
  | fin _, ninf => inf
  | ninf, fin _ => ninf
  | inf, inf => nan
  | ninf, ninf => nan
  | inf, ninf => inf
  | ninf, inf => ninf

/-- IEEE multiplication (idealized: finite results never overflow;
`±∞ * 0 = NaN`). -/
def mul : F → F → F
  | nan, _ => nan
  | _, nan => nan
  | fin x, fin y => fin (x * y)
  | fin x, inf => if x = 0 then nan else if 0 < x then inf else ninf
  | inf, fin y => if y = 0 then nan else if 0 < y then inf else ninf
  | fin x, ninf => if x = 0 then nan else if 0 < x then ninf else inf
  | ninf, fin y => if y = 0 then nan else if 0 < y then ninf else inf
  | inf, inf => inf
  | ninf, ninf => inf
  | inf, ninf => ninf
  | ninf, inf => ninf

/-- IEEE division (idealized: finite results are exact; a single zero stands
for `±0`, so `x / 0` takes the sign of `x`). -/
def div : F → F → F
  | nan, _ => nan
  | _, nan => nan
  | fin x, fin y =>
      if y = 0 then (if x = 0 then nan else if 0 < x then inf else ninf)
      else fin (x / y)
  | fin _, inf => fin 0
  | fin _, ninf => fin 0
  | inf, fin y => if 0 ≤ y then inf else ninf
  | ninf, fin y => if 0 ≤ y then ninf else inf
  | inf, inf => nan
  | inf, ninf => nan
  | ninf, inf => nan
  | ninf, ninf => nan

/-- IEEE square root: `NaN` on negative inputs. -/
def sqrt : F → F
  | fin x => if 0 ≤ x then fin (Real.sqrt x) else nan
  | inf => inf
  | ninf => nan
  | nan => nan

/-- IEEE strict comparison `<` (false on any comparison with `NaN`). -/
def lt : F → F → Prop
  | nan, _ => False
  | _, nan => False
  | fin x, fin y => x < y
  | fin _, inf => True
  | inf, fin _ => False
  | fin _, ninf => False
  | ninf, fin _ => True
  | inf, inf => False
  | ninf, ninf => False
  | ninf, inf => True
  | inf, ninf => False

/-- IEEE comparison `<=` (false on any comparison with `NaN`). -/
def le : F → F → Prop
  | nan, _ => False
  | _, nan => False
  | fin x, fin y => x ≤ y
  | fin _, inf => True
  | inf, fin _ => False
  | fin _, ninf => False
  | ninf, fin _ => True
  | inf, inf => True
  | ninf, ninf => True
  | ninf, inf => True
  | inf, ninf => False

/-- Model of `f32::max`: if one argument is `NaN`, the other is returned. -/
def max : F → F → F
  | nan, b => b
  | a, nan => a
  | fin x, fin y => fin (Max.max x y)
  | inf, _ => inf
  | _, inf => inf
  | ninf, b => b
  | a, ninf => a

/-- Model of `f32::min`: if one argument is `NaN`, the other is returned. -/
def min : F → F → F
  | nan, b => b
  | a, nan => a
  | fin x, fin y => fin (Min.min x y)
  | ninf, _ => ninf
  | _, ninf => ninf
  | inf, b => b
  | a, inf => a

/-- Model of `f32::partial_cmp`: `none` exactly when an operand is `NaN`. -/
def ordCompare : F → F → Option Ordering
  | nan, _ => none
  | _, nan => none
  | fin x, fin y =>
      if x < y then some .lt else if x = y then some .eq else some .gt
  | fin _, inf => some .lt
  | inf, fin _ => some .gt
  | fin _, ninf => some .gt
  | ninf, fin _ => some .lt
  | inf, inf => some .eq
  | ninf, ninf => some .eq
  | ninf, inf => some .lt
  | inf, ninf => some .gt

@[simp] theorem isFinite_fin (x : ℝ) : (fin x).isFinite = true := rfl
@[simp] theorem isFinite_inf : inf.isFinite = false := rfl
@[simp] theorem isFinite_ninf : ninf.isFinite = false := rfl
@[simp] theorem isFinite_nan : nan.isFinite = false := rfl
@[simp] theorem isNaN_fin (x : ℝ) : (fin x).isNaN = false := rfl
@[simp] theorem isNaN_inf : inf.isNaN = false := rfl
@[simp] theorem isNaN_ninf : ninf.isNaN = false := rfl
@[simp] theorem isNaN_nan : nan.isNaN = true := rfl
@[simp] theorem isInfinite_fin (x : ℝ) : (fin x).isInfinite = false := rfl
@[simp] theorem isInfinite_inf : inf.isInfinite = true := rfl
@[simp] theorem isInfinite_ninf : ninf.isInfinite = true := rfl
@[simp] theorem isInfinite_nan : nan.isInfinite = false := rfl

@[simp] theorem neg_fin (x : ℝ) : (fin x).neg = fin (-x) := rfl
@[simp] theorem add_fin (x y : ℝ) : (fin x).add (fin y) = fin (x + y) := rfl
@[simp] theorem sub_fin (x y : ℝ) : (fin x).sub (fin y) = fin (x - y) := rfl
@[simp] theorem mul_fin (x y : ℝ) : (fin x).mul (fin y) = fin (x * y) := rfl

@[simp] theorem div_fin (x y : ℝ) (hy : y ≠ 0) :
    (fin x).div (fin y) = fin (x / y) := by
  simp [div, hy]

@[simp] theorem sqrt_fin (x : ℝ) (hx : 0 ≤ x) :
    (fin x).sqrt = fin (Real.sqrt x) := by
  simp [sqrt, hx]

@[simp] theorem lt_fin (x y : ℝ) : (fin x).lt (fin y) ↔ x < y := Iff.rfl
@[simp] theorem le_fin (x y : ℝ) : (fin x).le (fin y) ↔ x ≤ y := Iff.rfl
@[simp] theorem max_fin (x y : ℝ) : (fin x).max (fin y) = fin (Max.max x y) := rfl
@[simp] theorem min_fin (x y : ℝ) : (fin x).min (fin y) = fin (Min.min x y) := rfl

end F

/-- Model of `glam::Vec3`: three `F` components. -/
structure Vec3 where
  x : F
  y : F
  z : F

namespace Vec3

/-- Model of `Vec3::ZERO`. -/
def zero : Vec3 := ⟨.fin 0, .fin 0, .fin 0⟩

/-- Componentwise vector addition. -/
def add (a b : Vec3) : Vec3 := ⟨a.x.add b.x, a.y.add b.y, a.z.add b.z⟩

/-- Componentwise vector subtraction. -/
def sub (a b : Vec3) : Vec3 := ⟨a.x.sub b.x, a.y.sub b.y, a.z.sub b.z⟩

/-- Componentwise vector negation. -/
def neg (a : Vec3) : Vec3 := ⟨a.x.neg, a.y.neg, a.z.neg⟩

/-- Multiplication of a vector by a scalar (componentwise). -/
def smul (a : Vec3) (s : F) : Vec3 := ⟨a.x.mul s, a.y.mul s, a.z.mul s⟩

/-- Division of a vector by a scalar (componentwise). -/
def divScalar (a : Vec3) (s : F) : Vec3 := ⟨a.x.div s, a.y.div s, a.z.div s⟩

/-- Model of `Vec3::dot`. -/
def dot (a b : Vec3) : F :=
  ((a.x.mul b.x).add (a.y.mul b.y)).add (a.z.mul b.z)

/-- Model of `Vec3::length_squared`: `self.dot(self)`. -/
def length_squared (a : Vec3) : F := a.dot a

/-- Model of `Vec3::length`: `self.dot(self).sqrt()`. -/
def length (a : Vec3) : F := (a.dot a).sqrt

/-- Model of `Vec3::max` (componentwise, `f32::max` semantics). -/
def vmax (a b : Vec3) : Vec3 := ⟨a.x.max b.x, a.y.max b.y, a.z.max b.z⟩

/-- Model of `Vec3::min` (componentwise, `f32::min` semantics). -/
def vmin (a b : Vec3) : Vec3 := ⟨a.x.min b.x, a.y.min b.y, a.z.min b.z⟩

/-- Model of `Vec3::clamp`: `self.max(min).min(max)`. -/
def clamp (v lo hi : Vec3) : Vec3 := (v.vmax lo).vmin hi

/-- A vector all of whose components are finite. -/
def finVec (a b c : ℝ) : Vec3 := ⟨.fin a, .fin b, .fin c⟩

@[simp] theorem finVec_x (a b c : ℝ) : (finVec a b c).x = .fin a := rfl
@[simp] theorem finVec_y (a b c : ℝ) : (finVec a b c).y = .fin b := rfl
@[simp] theorem finVec_z (a b c : ℝ) : (finVec a b c).z = .fin c := rfl

theorem dot_finVec (a b c : ℝ) :
    (finVec a b c).dot (finVec a b c) = .fin (a * a + b * b + c * c) := rfl

theorem length_finVec (a b c : ℝ) :
    (finVec a b c).length = .fin (Real.sqrt (a * a + b * b + c * c)) := by
  rw [length, dot_finVec,
    F.sqrt_fin _ (by nlinarith [mul_self_nonneg a, mul_self_nonneg b, mul_self_nonneg c])]

end Vec3

/-- The reasons a `Vec3` cannot become a `Direction3d`
(`InvalidDirectionError` from `bevy_math/src/primitives/mod.rs`). -/
inductive InvalidDirectionError where
  | Zero
  | Infinite
  | NaN
deriving DecidableEq

namespace InvalidDirectionError

/-- Modelled from the spec: `InvalidDirectionError::from_length` lives in
`bevy_math/src/primitives/mod.rs`, which is not part of the provided sources.
The spec gives the precedence "infinite check first, then NaN, then
non-positive": an infinite length yields `Infinite`; otherwise a `NaN` length
yields `NaN`; any other rejected (zero or non-positive) length yields
`Zero`. -/
def from_length (length : F) : InvalidDirectionError :=
  if length.isInfinite then .Infinite
  else if length.isNaN then .NaN
  else .Zero

end InvalidDirectionError

/-- A normalized vector pointing in a direction in 3D space (`Direction3d`). -/
structure Direction3d where
  toVec : Vec3

namespace Direction3d

/-- Model of `Direction3d::new_unchecked`: wraps without validation (the Rust
`debug_assert!` is a debug-build-only check and has no release semantics). -/
def new_unchecked (value : Vec3) : Direction3d := ⟨value⟩

/-- Model of `Direction3d::new_and_length`: computes the length, accepts exactly when
it is finite and strictly positive, and otherwise classifies the failure via
`InvalidDirectionError::from_length`. -/
def new_and_length (value : Vec3) :
    Except InvalidDirectionError (Direction3d × F) :=
  if value.length.isFinite = true ∧ (F.fin 0).lt value.length then
    .ok (⟨value.divScalar value.length⟩, value.length)
  else
    .error (InvalidDirectionError.from_length value.length)

/-- Model of `Direction3d::new`: `new_and_length` with the length dropped. -/
def new (value : Vec3) : Except InvalidDirectionError Direction3d :=
  (new_and_length value).map Prod.fst

/-- Model of `Direction3d::from_xyz`. -/
def from_xyz (x y z : F) : Except InvalidDirectionError Direction3d :=
  new ⟨x, y, z⟩

end Direction3d

/-- A sphere primitive (`Sphere`). -/
structure Sphere where
  radius : F

namespace Sphere

/-- Model of `Sphere::closest_point`: inside points (squared distance at most squared
radius) are returned unchanged; outside points are scaled onto the surface. -/
def closest_point (s : Sphere) (point : Vec3) : Vec3 :=
  let distance_squared := point.length_squared
  if distance_squared.le (s.radius.mul s.radius) then
    point
  else
    let dir_to_point := point.divScalar distance_squared.sqrt
    dir_to_point.smul s.radius

end Sphere

/-- A segment of a line along a direction in 3D space (`Segment3d`). -/
structure Segment3d where
  direction : Direction3d
  half_length : F

namespace Segment3d

/-- Model of `Segment3d::new`: stores the direction and half the given length. -/
def new (direction : Direction3d) (length : F) : Segment3d :=
  ⟨direction, length.div (F.fin 2)⟩

/-- Model of `Segment3d::from_points`: direction is the normalized displacement
(through the unchecked constructor), translation is the midpoint. -/
def from_points (point1 point2 : Vec3) : Segment3d × Vec3 :=
  let diff := point2.sub point1
  let length := diff.length
  (Segment3d.new (Direction3d.new_unchecked (diff.divScalar length)) length,
   (point1.add point2).divScalar (F.fin 2))

/-- Model of `Segment3d::point1`: `*direction * -half_length`. -/
def point1 (s : Segment3d) : Vec3 := s.direction.toVec.smul s.half_length.neg

/-- Model of `Segment3d::point2`: `*direction * half_length`. -/
def point2 (s : Segment3d) : Vec3 := s.direction.toVec.smul s.half_length

end Segment3d

/-- Model of `Polyline3d::<N>::from_iter`, with the input sequence as a list: starts
from an array of `N` zero vectors and fills indices in order from the first
at most `N` input points. -/
def polylineFromIter : (N : ℕ) → List Vec3 → List Vec3
  | 0, _ => []
  | n + 1, [] => Vec3.zero :: polylineFromIter n []
  | n + 1, p :: ps => p :: polylineFromIter n ps

/-- A cuboid primitive (`Cuboid`). -/
structure Cuboid where
  half_size : Vec3

namespace Cuboid

/-- Model of `Cuboid::closest_point`: clamp the point's coordinates to the cuboid. -/
def closest_point (c : Cuboid) (point : Vec3) : Vec3 :=
  point.clamp c.half_size.neg c.half_size

end Cuboid

/-- The type of torus determined by the minor and major radii (`TorusKind`). -/
inductive TorusKind where
  | Ring
  | Horn
  | Spindle
  | Invalid
deriving DecidableEq

/-- A torus primitive (`Torus`). -/
structure Torus where
  minor_radius : F
  major_radius : F

namespace Torus

/-- Model of `Torus::new`: derives the minor and major radii from inner and outer. -/
def new (inner_radius outer_radius : F) : Torus :=
  let minor_radius := (outer_radius.sub inner_radius).div (F.fin 2)
  let major_radius := outer_radius.sub minor_radius
  ⟨minor_radius, major_radius⟩

/-- Model of `Torus::inner_radius`: `major_radius - minor_radius`. -/
def inner_radius (t : Torus) : F := t.major_radius.sub t.minor_radius

/-- Model of `Torus::outer_radius`: `major_radius + minor_radius`. -/
def outer_radius (t : Torus) : F := t.major_radius.add t.minor_radius

/-- Model of `Torus::kind`: `Invalid` for non-positive or non-finite radii, otherwise
classified by `major_radius.partial_cmp(&minor_radius)`.  The `none` arm
models the unreachable `unwrap` (both radii are finite past the guard). -/
def kind (t : Torus) : TorusKind :=
  if t.minor_radius.le (F.fin 0) ∨ t.minor_radius.isFinite = false ∨
      t.major_radius.le (F.fin 0) ∨ t.major_radius.isFinite = false then
    .Invalid
  else
    match t.major_radius.ordCompare t.minor_radius with
    | some .gt => .Ring
    | some .eq => .Horn
    | some .lt => .Spindle
    | none => .Invalid

end Torus

section ClaimTheorems

/-- Splitting a finite `F` value off by its `isFinite` flag. -/
theorem F.isFinite_eq_true_iff (x : F) : x.isFinite = true ↔ ∃ r : ℝ, x = F.fin r := by
  cases x <;> simp [F.isFinite]

theorem Vec3.length_squared_finVec (a b c : ℝ) :
    (Vec3.finVec a b c).length_squared = F.fin (a * a + b * b + c * c) := rfl

/-- Claim C8: `Direction3d::new` applied to the zero vector fails with the
`Zero` error, applied to `(∞, 0, 0)` fails with the `Infinite` error, and
applied to `(NaN, 0, 0)` fails with the `NaN` error. -/
theorem direction3d_new_error_cases :
    Direction3d.new (Vec3.finVec 0 0 0) = .error .Zero ∧
    Direction3d.new ⟨.inf, .fin 0, .fin 0⟩ = .error .Infinite ∧
    Direction3d.new ⟨.nan, .fin 0, .fin 0⟩ = .error .NaN := by
  refine ⟨?_, ?_, ?_⟩ <;>
    simp [Direction3d.new, Direction3d.new_and_length, Vec3.length, Vec3.dot,
      Vec3.finVec, F.mul, F.add, F.sqrt, F.lt, F.isFinite, F.isInfinite, F.isNaN,
      InvalidDirectionError.from_length, Except.map]

/-- Claim C2: every rejected input to `Direction3d::new_and_length` is
classified on the computed length: an infinite length fails with `Infinite`;
otherwise a `NaN` length fails with `NaN`; otherwise a length that is not
strictly positive is rejected with `Zero`. -/
theorem direction3d_error_classification (v : Vec3) :
    (v.length.isInfinite = true →
      Direction3d.new_and_length v = .error .Infinite) ∧
    (v.length.isInfinite = false → v.length.isNaN = true →
      Direction3d.new_and_length v = .error .NaN) ∧
    (v.length.isInfinite = false → v.length.isNaN = false →
      ¬ (F.fin 0).lt v.length →
      Direction3d.new_and_length v = .error .Zero) := by
  rw [Direction3d.new_and_length, InvalidDirectionError.from_length]
  generalize v.length = l
  cases l <;>
    simp [F.isFinite, F.isInfinite, F.isNaN, F.lt]

/-- Witness for claim C2: the zero vector has length `0`, which is neither
infinite nor `NaN` and not strictly positive, so construction fails with
`Zero`. -/
theorem direction3d_error_classification_witness :
    Direction3d.new_and_length (Vec3.finVec 0 0 0) = .error .Zero := by
  have hlen : (Vec3.finVec 0 0 0).length = F.fin 0 := by
    rw [Vec3.length_finVec]; norm_num
  exact (direction3d_error_classification (Vec3.finVec 0 0 0)).2.2
    (by rw [hlen]; rfl) (by rw [hlen]; rfl)
    (by rw [hlen]; simp)

/-- The guard of `Torus::kind`, named for reuse in statements. -/
def Torus.degenerate (t : Torus) : Prop :=
  t.minor_radius.le (F.fin 0) ∨ t.minor_radius.isFinite = false ∨
    t.major_radius.le (F.fin 0) ∨ t.major_radius.isFinite = false

theorem Torus.kind_of_degenerate (t : Torus) (h : t.degenerate) :
    t.kind = .Invalid := by
  rw [Torus.degenerate] at h
  rw [Torus.kind, if_pos h]

theorem Torus.kind_fin_fin (mi ma : ℝ) (hmi : 0 < mi) (hma : 0 < ma) :
    (Torus.mk (F.fin mi) (F.fin ma)).kind =
      if ma < mi then .Spindle else if ma = mi then .Horn else .Ring := by
  rw [Torus.kind, if_neg]
  · dsimp only
    rw [F.ordCompare]
    rcases lt_trichotomy ma mi with hlt | heq | hgt
    · rw [if_pos hlt, if_pos hlt]
    · rw [if_neg (by simp [heq]), if_pos heq, if_neg (by simp [heq]), if_pos heq]
    · rw [if_neg (not_lt.mpr hgt.le), if_neg (ne_of_gt hgt),
        if_neg (not_lt.mpr hgt.le), if_neg (ne_of_gt hgt)]
  · dsimp only
    simp [F.le, not_le.mpr hmi, not_le.mpr hma]

theorem Torus.not_degenerate_fin (mi ma : ℝ) :
    ¬ (Torus.mk (F.fin mi) (F.fin ma)).degenerate ↔ (0 < mi ∧ 0 < ma) := by
  rw [Torus.degenerate]
  dsimp only
  simp [not_or, not_le]

/-- Claim C7: `Torus::kind` returns `Invalid` exactly when the minor or major
radius is non-positive or non-finite; otherwise it returns `Ring` when
`major_radius > minor_radius`, `Horn` when they are equal, and `Spindle` when
`major_radius < minor_radius`. -/
theorem torus_kind_classifies (mi ma : F) :
    ((Torus.mk mi ma).kind = .Invalid ↔ (Torus.mk mi ma).degenerate) ∧
    (¬ (Torus.mk mi ma).degenerate →
      (((Torus.mk mi ma).kind = .Ring ↔ mi.lt ma) ∧
       ((Torus.mk mi ma).kind = .Horn ↔ mi = ma) ∧
       ((Torus.mk mi ma).kind = .Spindle ↔ ma.lt mi))) := by
  by_cases hdeg : (Torus.mk mi ma).degenerate
  · exact ⟨by simp [Torus.kind_of_degenerate _ hdeg, hdeg],
      fun h => absurd hdeg h⟩
  · have hfin : ∃ a b : ℝ, mi = F.fin a ∧ ma = F.fin b := by
      have h1 := hdeg
      rw [Torus.degenerate] at h1
      dsimp only at h1
      push_neg at h1
      obtain ⟨a, ha⟩ := (F.isFinite_eq_true_iff mi).mp
        (by simpa using h1.2.1)
      obtain ⟨b, hb⟩ := (F.isFinite_eq_true_iff ma).mp
        (by simpa using h1.2.2.2)
      exact ⟨a, b, ha, hb⟩
    obtain ⟨a, b, rfl, rfl⟩ := hfin
    obtain ⟨hpa, hpb⟩ := (Torus.not_degenerate_fin a b).mp hdeg
    rw [Torus.kind_fin_fin a b hpa hpb]
    refine ⟨?_, fun _ => ⟨?_, ?_, ?_⟩⟩ <;>
      rcases lt_trichotomy b a with hlt | heq | hgt
    · simp [if_pos hlt, hdeg]
    · subst heq
      simp [hdeg]
    · simp [if_neg (not_lt.mpr hgt.le), if_neg (ne_of_gt hgt), hdeg]
    · simp [if_pos hlt, F.lt, not_lt.mpr hlt.le]
    · subst heq
      simp [F.lt]
    · simp [if_neg (not_lt.mpr hgt.le), if_neg (ne_of_gt hgt), F.lt, hgt]
    · simp [if_pos hlt, F.fin.injEq, ne_of_gt hlt]
    · subst heq
      simp
    · simp [if_neg (not_lt.mpr hgt.le), if_neg (ne_of_gt hgt), F.fin.injEq,
        (ne_of_gt hgt).symm]
    · simp [if_pos hlt, F.lt, hlt]
    · subst heq
      simp [F.lt]
    · simp [if_neg (not_lt.mpr hgt.le), if_neg (ne_of_gt hgt), F.lt,
        not_lt.mpr hgt.le]

/-- Witness for claim C7: a torus with minor radius 1 and major radius 2 is
not degenerate and is classified as a ring. -/
theorem torus_kind_classifies_witness :
    (Torus.mk (F.fin 1) (F.fin 2)).kind = TorusKind.Ring := by
  have hnd : ¬ (Torus.mk (F.fin 1) (F.fin 2)).degenerate :=
    (Torus.not_degenerate_fin 1 2).mpr (by norm_num)
  exact ((torus_kind_classifies (F.fin 1) (F.fin 2)).2 hnd).1.mpr
    (by norm_num [F.lt])

theorem Torus.new_fin (i o : ℝ) :
    Torus.new (F.fin i) (F.fin o) =
      Torus.mk (F.fin ((o - i) / 2)) (F.fin (o - (o - i) / 2)) := by
  rw [Torus.new]
  rw [F.sub_fin, F.div_fin _ _ (by norm_num : (2:ℝ) ≠ 0), F.sub_fin]

/-- Counterexample for claim C6: `Torus::new(0, 2)` has minor radius 1 and
major radius 1, so its kind is `Horn`, not `Ring` as claimed. -/
theorem torus_new_zero_two_not_ring :
    (Torus.new (F.fin 0) (F.fin 2)).kind ≠ TorusKind.Ring := by
  rw [Torus.new_fin]
  norm_num
  rw [Torus.kind_fin_fin 1 1 one_pos one_pos]
  norm_num
  decide

/-- Claim C6 (amended): `Torus::new(inner, outer)` derives
`minor_radius = (outer - inner) / 2` and `major_radius = outer - minor_radius`;
`Torus::new(0, 2).kind()` is `Horn` (minor and major radius are both 1, not
`Ring` as originally claimed); `Torus::new(inner, inner).kind()` is `Invalid`;
and a torus built directly with positive finite radii has kind `Ring`, `Horn`
or `Spindle` as the major radius is greater than, equal to, or less than the
minor radius. -/
theorem torus_scenarios :
    (∀ i o : F, (Torus.new i o).minor_radius = (o.sub i).div (F.fin 2) ∧
      (Torus.new i o).major_radius = o.sub ((o.sub i).div (F.fin 2))) ∧
    (Torus.new (F.fin 0) (F.fin 2)).kind = TorusKind.Horn ∧
    (∀ i : F, (Torus.new i i).kind = TorusKind.Invalid) ∧
    (∀ minor major : ℝ, 0 < minor → 0 < major →
      ((minor < major →
          (Torus.mk (F.fin minor) (F.fin major)).kind = TorusKind.Ring) ∧
       (minor = major →
          (Torus.mk (F.fin minor) (F.fin major)).kind = TorusKind.Horn) ∧
       (major < minor →
          (Torus.mk (F.fin minor) (F.fin major)).kind = TorusKind.Spindle))) := by
  refine ⟨fun i o => ⟨rfl, rfl⟩, ?_, ?_, ?_⟩
  · rw [Torus.new_fin]
    norm_num
    rw [Torus.kind_fin_fin 1 1 one_pos one_pos]
    norm_num
  · intro i
    apply Torus.kind_of_degenerate
    rw [Torus.degenerate]
    cases i <;>
      norm_num [Torus.new, F.sub, F.div, F.le, F.isFinite]
  · intro minor major hminor hmajor
    rw [Torus.kind_fin_fin minor major hminor hmajor]
    refine ⟨fun h => ?_, fun h => ?_, fun h => ?_⟩
    · rw [if_neg (not_lt.mpr h.le), if_neg (ne_of_gt h)]
    · rw [if_neg (by simp [h]), if_pos h.symm]
    · rw [if_pos h]

/-- Witness for claim C6: a torus built directly with minor radius 1 and
major radius 3 (both positive and finite, major greater than minor) has kind
`Ring`. -/
theorem torus_scenarios_witness :
    (Torus.mk (F.fin 1) (F.fin 3)).kind = TorusKind.Ring :=
  (torus_scenarios.2.2.2 1 3 one_pos (by norm_num)).1 (by norm_num)

theorem sum_sq_pos_of_ne_zero (a b c : ℝ) (h : ¬(a = 0 ∧ b = 0 ∧ c = 0)) :
    0 < a * a + b * b + c * c := by
  rcases lt_or_eq_of_le
      (by nlinarith [mul_self_nonneg a, mul_self_nonneg b, mul_self_nonneg c] :
        (0:ℝ) ≤ a * a + b * b + c * c) with h0 | h0
  · exact h0
  · exfalso
    apply h
    refine ⟨mul_self_eq_zero.mp ?_, mul_self_eq_zero.mp ?_, mul_self_eq_zero.mp ?_⟩ <;>
      nlinarith [mul_self_nonneg a, mul_self_nonneg b, mul_self_nonneg c]

theorem direction3d_new_and_length_ok (a b c : ℝ)
    (h : ¬(a = 0 ∧ b = 0 ∧ c = 0)) :
    Direction3d.new_and_length (Vec3.finVec a b c) =
      .ok (⟨Vec3.finVec (a / Real.sqrt (a * a + b * b + c * c))
              (b / Real.sqrt (a * a + b * b + c * c))
              (c / Real.sqrt (a * a + b * b + c * c))⟩,
           F.fin (Real.sqrt (a * a + b * b + c * c))) := by
  have hs : 0 < a * a + b * b + c * c := sum_sq_pos_of_ne_zero a b c h
  have hsqrt : 0 < Real.sqrt (a * a + b * b + c * c) := Real.sqrt_pos.mpr hs
  rw [Direction3d.new_and_length, Vec3.length_finVec,
    if_pos ⟨rfl, (F.lt_fin _ _).mpr hsqrt⟩]
  simp only [Vec3.divScalar, Vec3.finVec, F.div_fin _ _ (ne_of_gt hsqrt)]

/-- Claim C1: for every finite, nonzero input vector, `Direction3d::new`
returns `Ok` with a direction of length exactly 1 (the idealized form of
"1 within floating-point tolerance"), and `Direction3d::new_and_length`
additionally returns exactly the original, pre-division length. -/
theorem direction3d_new_finite_nonzero (a b c : ℝ)
    (h : ¬(a = 0 ∧ b = 0 ∧ c = 0)) :
    ∃ d : Direction3d,
      Direction3d.new (Vec3.finVec a b c) = .ok d ∧
      d.toVec.length = F.fin 1 ∧
      Direction3d.new_and_length (Vec3.finVec a b c) =
        .ok (d, (Vec3.finVec a b c).length) := by
  have hs : 0 < a * a + b * b + c * c := sum_sq_pos_of_ne_zero a b c h
  have hsqrt : 0 < Real.sqrt (a * a + b * b + c * c) := Real.sqrt_pos.mpr hs
  have hsq : Real.sqrt (a * a + b * b + c * c) *
      Real.sqrt (a * a + b * b + c * c) = a * a + b * b + c * c :=
    Real.mul_self_sqrt hs.le
  refine ⟨⟨Vec3.finVec (a / Real.sqrt (a * a + b * b + c * c))
      (b / Real.sqrt (a * a + b * b + c * c))
      (c / Real.sqrt (a * a + b * b + c * c))⟩, ?_, ?_, ?_⟩
  · rw [Direction3d.new, direction3d_new_and_length_ok a b c h]
    rfl
  · rw [Vec3.length_finVec]
    have hone : a / Real.sqrt (a * a + b * b + c * c) *
          (a / Real.sqrt (a * a + b * b + c * c)) +
        b / Real.sqrt (a * a + b * b + c * c) *
          (b / Real.sqrt (a * a + b * b + c * c)) +
        c / Real.sqrt (a * a + b * b + c * c) *
          (c / Real.sqrt (a * a + b * b + c * c)) = 1 := by
      field_simp
    rw [hone, Real.sqrt_one]
  · rw [direction3d_new_and_length_ok a b c h, Vec3.length_finVec]

/-- Witness for claim C1: the vector `(3, 4, 0)` is accepted; its direction
is `(3/5, 4/5, 0)` with length 1, and the returned length is the original
length of the vector. -/
theorem direction3d_new_finite_nonzero_witness :
    ∃ d : Direction3d,
      Direction3d.new (Vec3.finVec 3 4 0) = .ok d ∧
      d.toVec.length = F.fin 1 ∧
      Direction3d.new_and_length (Vec3.finVec 3 4 0) =
        .ok (d, (Vec3.finVec 3 4 0).length) :=
  direction3d_new_finite_nonzero 3 4 0 (by norm_num)

theorem Sphere.closest_point_fin (r a b c : ℝ) :
    (Sphere.mk (F.fin r)).closest_point (Vec3.finVec a b c) =
      if a * a + b * b + c * c ≤ r * r then Vec3.finVec a b c
      else Vec3.finVec (a / Real.sqrt (a * a + b * b + c * c) * r)
        (b / Real.sqrt (a * a + b * b + c * c) * r)
        (c / Real.sqrt (a * a + b * b + c * c) * r) := by
  have hS : (0:ℝ) ≤ a * a + b * b + c * c := by
    nlinarith [mul_self_nonneg a, mul_self_nonneg b, mul_self_nonneg c]
  simp only [Sphere.closest_point, Vec3.length_squared_finVec, F.mul_fin, F.le_fin]
  by_cases hle : a * a + b * b + c * c ≤ r * r
  · rw [if_pos hle, if_pos hle]
  · rw [if_neg hle, if_neg hle]
    have hpos : (0:ℝ) < a * a + b * b + c * c :=
      lt_of_le_of_lt (mul_self_nonneg r) (not_le.mp hle)
    have hsqrt : 0 < Real.sqrt (a * a + b * b + c * c) := Real.sqrt_pos.mpr hpos
    rw [F.sqrt_fin _ hS]
    simp only [Vec3.divScalar, Vec3.smul, Vec3.finVec,
      F.div_fin _ _ (ne_of_gt hsqrt), F.mul_fin]

/-- Claim C3: for a sphere of radius `r ≥ 0` centered at the origin and a
query point `p`: if `|p| ≤ r` the point is returned unchanged; otherwise the
returned point has length exactly `r` and lies on the ray from the origin
through `p`; in particular the origin itself is always returned unchanged. -/
theorem sphere_closest_point_spec (r a b c : ℝ) (hr : 0 ≤ r) :
    (Real.sqrt (a * a + b * b + c * c) ≤ r →
      (Sphere.mk (F.fin r)).closest_point (Vec3.finVec a b c) =
        Vec3.finVec a b c) ∧
    (r < Real.sqrt (a * a + b * b + c * c) →
      ((Sphere.mk (F.fin r)).closest_point (Vec3.finVec a b c)).length =
          F.fin r ∧
      (∃ t : ℝ, 0 ≤ t ∧
        (Sphere.mk (F.fin r)).closest_point (Vec3.finVec a b c) =
          Vec3.finVec (t * a) (t * b) (t * c))) ∧
    (a = 0 ∧ b = 0 ∧ c = 0 →
      (Sphere.mk (F.fin r)).closest_point (Vec3.finVec a b c) =
        Vec3.finVec a b c) := by
  have hS : (0:ℝ) ≤ a * a + b * b + c * c := by
    nlinarith [mul_self_nonneg a, mul_self_nonneg b, mul_self_nonneg c]
  refine ⟨fun hin => ?_, fun hout => ?_, fun hzero => ?_⟩
  · have hin2 : a * a + b * b + c * c ≤ r * r := by
      have h2 := mul_self_le_mul_self (Real.sqrt_nonneg (a * a + b * b + c * c)) hin
      rwa [Real.mul_self_sqrt hS] at h2
    rw [Sphere.closest_point_fin, if_pos hin2]
  · have hgt : r * r < a * a + b * b + c * c := by
      have h2 := mul_self_lt_mul_self hr hout
      rwa [Real.mul_self_sqrt hS] at h2
    have hpos : (0:ℝ) < a * a + b * b + c * c :=
      lt_of_le_of_lt (mul_self_nonneg r) hgt
    have hsqrt : 0 < Real.sqrt (a * a + b * b + c * c) := Real.sqrt_pos.mpr hpos
    have hms : Real.sqrt (a * a + b * b + c * c) *
        Real.sqrt (a * a + b * b + c * c) = a * a + b * b + c * c :=
      Real.mul_self_sqrt hS
    rw [Sphere.closest_point_fin, if_neg (not_le.mpr hgt)]
    constructor
    · rw [Vec3.length_finVec]
      have hone : a / Real.sqrt (a * a + b * b + c * c) * r *
            (a / Real.sqrt (a * a + b * b + c * c) * r) +
          b / Real.sqrt (a * a + b * b + c * c) * r *
            (b / Real.sqrt (a * a + b * b + c * c) * r) +
          c / Real.sqrt (a * a + b * b + c * c) * r *
            (c / Real.sqrt (a * a + b * b + c * c) * r) = r * r := by
        field_simp
        ring
      rw [hone, Real.sqrt_mul_self hr]
    · refine ⟨r / Real.sqrt (a * a + b * b + c * c),
        div_nonneg hr (Real.sqrt_nonneg _), ?_⟩
      rw [show r / Real.sqrt (a * a + b * b + c * c) * a =
            a / Real.sqrt (a * a + b * b + c * c) * r by ring,
          show r / Real.sqrt (a * a + b * b + c * c) * b =
            b / Real.sqrt (a * a + b * b + c * c) * r by ring,
          show r / Real.sqrt (a * a + b * b + c * c) * c =
            c / Real.sqrt (a * a + b * b + c * c) * r by ring]
  · obtain ⟨rfl, rfl, rfl⟩ := hzero
    rw [Sphere.closest_point_fin, if_pos (by nlinarith [mul_self_nonneg r])]

/-- Witness for claim C3: for the unit sphere and the outside point
`(2, 0, 0)`, the returned point has length exactly 1. -/
theorem sphere_closest_point_spec_witness :
    ((Sphere.mk (F.fin 1)).closest_point (Vec3.finVec 2 0 0)).length =
      F.fin 1 :=
  ((sphere_closest_point_spec 1 2 0 0 (by norm_num)).2.1
    (by
      rw [show (2:ℝ) * 2 + 0 * 0 + 0 * 0 = 2 ^ 2 by norm_num,
        Real.sqrt_sq (by norm_num : (0:ℝ) ≤ 2)]
      norm_num)).1

theorem F.mul_fin_neg (q : F) (r : ℝ) :
    q.mul (F.fin (-r)) = (q.mul (F.fin r)).neg := by
  cases q with
  | fin x =>
    rw [F.mul_fin, F.mul_fin, F.neg_fin, mul_neg]
  | inf =>
    rcases lt_trichotomy r 0 with h | h | h
    · simp [F.mul, F.neg, h, h.ne, not_lt.mpr h.le, neg_eq_zero, neg_pos]
    · simp [F.mul, F.neg, h]
    · simp [F.mul, F.neg, h, h.ne.symm, not_lt.mpr (neg_nonpos.mpr h.le),
        neg_eq_zero]
  | ninf =>
    rcases lt_trichotomy r 0 with h | h | h
    · simp [F.mul, F.neg, h, h.ne, not_lt.mpr h.le, neg_eq_zero, neg_pos]
    · simp [F.mul, F.neg, h]
    · simp [F.mul, F.neg, h, h.ne.symm, not_lt.mpr (neg_nonpos.mpr h.le),
        neg_eq_zero]
  | nan => rfl

/-- Counterexample for claim C10: for the outside point `(2, 0, 0)`, a sphere
of radius `-1` does not return the same point as a sphere of radius `1` (it
returns the antipodal point `(-1, 0, 0)` instead of `(1, 0, 0)`). -/
theorem sphere_neg_radius_differs :
    (Sphere.mk (F.fin (-1))).closest_point (Vec3.finVec 2 0 0) ≠
      (Sphere.mk (F.fin 1)).closest_point (Vec3.finVec 2 0 0) := by
  rw [Sphere.closest_point_fin, Sphere.closest_point_fin,
    if_neg (by norm_num), if_neg (by norm_num)]
  have h4 : Real.sqrt ((2:ℝ) * 2 + 0 * 0 + 0 * 0) = 2 := by
    rw [show (2:ℝ) * 2 + 0 * 0 + 0 * 0 = 2 ^ 2 by norm_num]
    exact Real.sqrt_sq (by norm_num)
  rw [h4]
  intro heq
  have hx := congrArg Vec3.x heq
  rw [Vec3.finVec_x, Vec3.finVec_x, F.fin.injEq] at hx
  norm_num at hx

/-- Claim C10 (amended): `Sphere::closest_point`'s branch condition depends
on the radius only through its square, so radius `-r` takes the same branch
as radius `r` and inside points are returned unchanged for both; but for
points in the outside branch the returned point is scaled by the radius
itself, so radius `-r` yields the componentwise negation of the radius-`r`
result rather than the same point. -/
theorem sphere_closest_point_neg_radius (r : ℝ) (p : Vec3) :
    (p.length_squared.le ((F.fin r).mul (F.fin r)) →
      (Sphere.mk (F.fin (-r))).closest_point p = p ∧
      (Sphere.mk (F.fin r)).closest_point p = p) ∧
    (¬ p.length_squared.le ((F.fin r).mul (F.fin r)) →
      (Sphere.mk (F.fin (-r))).closest_point p =
        ((Sphere.mk (F.fin r)).closest_point p).neg) := by
  have hcond : (F.fin (-r)).mul (F.fin (-r)) = (F.fin r).mul (F.fin r) := by
    rw [F.mul_fin, F.mul_fin, neg_mul_neg]
  constructor
  · intro h
    constructor <;>
      · simp only [Sphere.closest_point, hcond]
        rw [if_pos h]
  · intro h
    simp only [Sphere.closest_point, hcond]
    rw [if_neg h, if_neg h]
    simp only [Vec3.smul, Vec3.neg, F.mul_fin_neg]

/-- Witness for claim C10 (amended): for radius 1 and the outside point
`(2, 0, 0)`, the radius `-1` sphere returns the negation of the radius 1
sphere's result. -/
theorem sphere_closest_point_neg_radius_witness :
    (Sphere.mk (F.fin (-1))).closest_point (Vec3.finVec 2 0 0) =
      ((Sphere.mk (F.fin 1)).closest_point (Vec3.finVec 2 0 0)).neg :=
  (sphere_closest_point_neg_radius 1 (Vec3.finVec 2 0 0)).2
    (by rw [Vec3.length_squared_finVec, F.mul_fin, F.le_fin]; norm_num)

/-- Claim C4: `Cuboid::closest_point` equals the query point with each
coordinate independently clamped to `[-h_i, +h_i]`, and a point already
inside those intervals is returned unchanged. -/
theorem cuboid_closest_point_spec (hx hy hz a b c : ℝ) :
    (Cuboid.mk (Vec3.finVec hx hy hz)).closest_point (Vec3.finVec a b c) =
      Vec3.finVec (Min.min hx (Max.max (-hx) a)) (Min.min hy (Max.max (-hy) b))
        (Min.min hz (Max.max (-hz) c)) ∧
    ((-hx ≤ a ∧ a ≤ hx) ∧ (-hy ≤ b ∧ b ≤ hy) ∧ (-hz ≤ c ∧ c ≤ hz) →
      (Cuboid.mk (Vec3.finVec hx hy hz)).closest_point (Vec3.finVec a b c) =
        Vec3.finVec a b c) := by
  have e : ∀ h p : ℝ, Min.min (Max.max p (-h)) h = Min.min h (Max.max (-h) p) := by
    intro h p
    rw [min_comm, max_comm]
  constructor
  · simp only [Cuboid.closest_point, Vec3.clamp, Vec3.neg, Vec3.vmax, Vec3.vmin,
      Vec3.finVec, F.neg_fin, F.max_fin, F.min_fin]
    rw [e hx a, e hy b, e hz c]
  · rintro ⟨⟨h1, h2⟩, ⟨h3, h4⟩, ⟨h5, h6⟩⟩
    simp only [Cuboid.closest_point, Vec3.clamp, Vec3.neg, Vec3.vmax, Vec3.vmin,
      Vec3.finVec, F.neg_fin, F.max_fin, F.min_fin]
    rw [max_eq_left h1, min_eq_left h2, max_eq_left h3, min_eq_left h4,
      max_eq_left h5, min_eq_left h6]

/-- Witness for claim C4: the interior point `(1/4, 1/10, 3/10)` of the
cuboid with half extents `(1, 1, 1)` is returned unchanged. -/
theorem cuboid_closest_point_spec_witness :
    (Cuboid.mk (Vec3.finVec 1 1 1)).closest_point
        (Vec3.finVec (1/4) (1/10) (3/10)) =
      Vec3.finVec (1/4) (1/10) (3/10) :=
  (cuboid_closest_point_spec 1 1 1 (1/4) (1/10) (3/10)).2 (by norm_num)

theorem Segment3d.from_points_fin (a1 b1 c1 a2 b2 c2 : ℝ)
    (hpos : 0 < (a2 - a1) * (a2 - a1) + (b2 - b1) * (b2 - b1) +
      (c2 - c1) * (c2 - c1)) :
    Segment3d.from_points (Vec3.finVec a1 b1 c1) (Vec3.finVec a2 b2 c2) =
      (⟨⟨Vec3.finVec
          ((a2 - a1) / Real.sqrt ((a2 - a1) * (a2 - a1) + (b2 - b1) * (b2 - b1) +
            (c2 - c1) * (c2 - c1)))
          ((b2 - b1) / Real.sqrt ((a2 - a1) * (a2 - a1) + (b2 - b1) * (b2 - b1) +
            (c2 - c1) * (c2 - c1)))
          ((c2 - c1) / Real.sqrt ((a2 - a1) * (a2 - a1) + (b2 - b1) * (b2 - b1) +
            (c2 - c1) * (c2 - c1)))⟩,
        F.fin (Real.sqrt ((a2 - a1) * (a2 - a1) + (b2 - b1) * (b2 - b1) +
          (c2 - c1) * (c2 - c1)) / 2)⟩,
       Vec3.finVec ((a1 + a2) / 2) ((b1 + b2) / 2) ((c1 + c2) / 2)) := by
  have hsqrt : 0 < Real.sqrt ((a2 - a1) * (a2 - a1) + (b2 - b1) * (b2 - b1) +
      (c2 - c1) * (c2 - c1)) := Real.sqrt_pos.mpr hpos
  have hdiff : (Vec3.finVec a2 b2 c2).sub (Vec3.finVec a1 b1 c1) =
      Vec3.finVec (a2 - a1) (b2 - b1) (c2 - c1) := by
    simp [Vec3.sub, Vec3.finVec]
  rw [Segment3d.from_points, hdiff, Vec3.length_finVec, Segment3d.new,
    Direction3d.new_unchecked]
  simp only [Vec3.divScalar, Vec3.add, Vec3.finVec, F.add_fin,
    F.div_fin _ _ (ne_of_gt hsqrt), F.div_fin _ _ (by norm_num : (2:ℝ) ≠ 0)]

/-- Claim C5: for distinct points `p1 ≠ p2`, `Segment3d::from_points` returns
a segment and a midpoint translation such that `midpoint + point1()` recovers
`p1` and `midpoint + point2()` recovers `p2` (exactly, in the idealized
model). -/
theorem segment3d_from_points_round_trip (a1 b1 c1 a2 b2 c2 : ℝ)
    (h : ¬(a1 = a2 ∧ b1 = b2 ∧ c1 = c2)) :
    (Segment3d.from_points (Vec3.finVec a1 b1 c1) (Vec3.finVec a2 b2 c2)).2.add
        (Segment3d.from_points (Vec3.finVec a1 b1 c1)
          (Vec3.finVec a2 b2 c2)).1.point1 = Vec3.finVec a1 b1 c1 ∧
    (Segment3d.from_points (Vec3.finVec a1 b1 c1) (Vec3.finVec a2 b2 c2)).2.add
        (Segment3d.from_points (Vec3.finVec a1 b1 c1)
          (Vec3.finVec a2 b2 c2)).1.point2 = Vec3.finVec a2 b2 c2 := by
  have hne : ¬(a2 - a1 = 0 ∧ b2 - b1 = 0 ∧ c2 - c1 = 0) := by
    intro ⟨h1, h2, h3⟩
    exact h ⟨by linarith, by linarith, by linarith⟩
  have hpos : 0 < (a2 - a1) * (a2 - a1) + (b2 - b1) * (b2 - b1) +
      (c2 - c1) * (c2 - c1) := sum_sq_pos_of_ne_zero _ _ _ hne
  have hsqrt : 0 < Real.sqrt ((a2 - a1) * (a2 - a1) + (b2 - b1) * (b2 - b1) +
      (c2 - c1) * (c2 - c1)) := Real.sqrt_pos.mpr hpos
  rw [Segment3d.from_points_fin a1 b1 c1 a2 b2 c2 hpos]
  constructor <;>
  · simp only [Segment3d.point1, Segment3d.point2, Vec3.smul, Vec3.add,
      Vec3.finVec, F.neg_fin, F.mul_fin, F.add_fin, Vec3.mk.injEq, F.fin.injEq]
    refine ⟨?_, ?_, ?_⟩ <;>
    · field_simp
      ring

/-- Witness for claim C5: the segment from `(0, 0, 0)` to `(2, 0, 0)`
round-trips both endpoints through the midpoint translation. -/
theorem segment3d_from_points_round_trip_witness :
    (Segment3d.from_points (Vec3.finVec 0 0 0) (Vec3.finVec 2 0 0)).2.add
        (Segment3d.from_points (Vec3.finVec 0 0 0)
          (Vec3.finVec 2 0 0)).1.point1 = Vec3.finVec 0 0 0 ∧
    (Segment3d.from_points (Vec3.finVec 0 0 0) (Vec3.finVec 2 0 0)).2.add
        (Segment3d.from_points (Vec3.finVec 0 0 0)
          (Vec3.finVec 2 0 0)).1.point2 = Vec3.finVec 2 0 0 :=
  segment3d_from_points_round_trip 0 0 0 2 0 0 (by norm_num)

theorem polylineFromIter_length (N : ℕ) (ps : List Vec3) :
    (polylineFromIter N ps).length = N := by
  induction N generalizing ps with
  | zero => rfl
  | succ n ih =>
    cases ps with
    | nil => simp [polylineFromIter, ih]
    | cons p tl => simp [polylineFromIter, ih]

theorem polylineFromIter_getD_lt (N : ℕ) (ps : List Vec3) (i : ℕ)
    (hiN : i < N) (hip : i < ps.length) :
    (polylineFromIter N ps).getD i Vec3.zero = ps.getD i Vec3.zero := by
  induction N generalizing ps i with
  | zero => omega
  | succ n ih =>
    cases ps with
    | nil => simp at hip
    | cons p tl =>
      cases i with
      | zero => rfl
      | succ j =>
        simp only [polylineFromIter, List.getD_cons_succ]
        exact ih tl j (by omega) (by simpa using hip)

theorem polylineFromIter_getD_ge (N : ℕ) (ps : List Vec3) (i : ℕ)
    (hip : ps.length ≤ i) (hiN : i < N) :
    (polylineFromIter N ps).getD i Vec3.zero = Vec3.zero := by
  induction N generalizing ps i with
  | zero => omega
  | succ n ih =>
    cases ps with
    | nil =>
      cases i with
      | zero => rfl
      | succ j =>
        simp only [polylineFromIter, List.getD_cons_succ]
        exact ih [] j (by simp) (by omega)
    | cons p tl =>
      cases i with
      | zero => simp at hip
      | succ j =>
        simp only [polylineFromIter, List.getD_cons_succ]
        exact ih tl j (by simpa using hip) (by omega)

theorem polylineFromIter_take (N : ℕ) (ps : List Vec3) :
    polylineFromIter N ps = polylineFromIter N (ps.take N) := by
  induction N generalizing ps with
  | zero => rfl
  | succ n ih =>
    cases ps with
    | nil => rfl
    | cons p tl =>
      simp only [List.take_succ_cons, polylineFromIter]
      rw [ih]

/-- Claim C9: constructing a fixed-size polyline from an input sequence keeps
the first at most `N` points in order, leaves unfilled trailing slots at the
zero vector when the input is shorter than `N`, and ignores all input beyond
the first `N` points. -/
theorem polyline_from_iter_spec (N : ℕ) (ps : List Vec3) :
    (polylineFromIter N ps).length = N ∧
    (∀ i : ℕ, i < N → i < ps.length →
      (polylineFromIter N ps).getD i Vec3.zero = ps.getD i Vec3.zero) ∧
    (∀ i : ℕ, ps.length ≤ i → i < N →
      (polylineFromIter N ps).getD i Vec3.zero = Vec3.zero) ∧
    polylineFromIter N ps = polylineFromIter N (ps.take N) :=
  ⟨polylineFromIter_length N ps,
   fun i h1 h2 => polylineFromIter_getD_lt N ps i h1 h2,
   fun i h1 h2 => polylineFromIter_getD_ge N ps i h1 h2,
   polylineFromIter_take N ps⟩

/-- Witness for claim C9: a polyline of size 3 built from a single point has
the zero vector in its unfilled slot at index 2. -/
theorem polyline_from_iter_spec_witness :
    (polylineFromIter 3 [Vec3.finVec 1 2 3]).getD 2 Vec3.zero = Vec3.zero :=
  (polyline_from_iter_spec 3 [Vec3.finVec 1 2 3]).2.2.1 2 (by simp) (by omega)
